import Mathlib

set_option maxRecDepth 16384

/-!
Verification development for the `whatsapp_rust` terminal chat client.

The definitions below are a shallow embedding, into Lean, of the core data
model and algorithms of the repository:

* `src/formatting.rs` — `wrap_text`, `shorten_urls`, `strip_emojis`,
  `get_media_label`, `format_reactions`, `format_messages_for_display`;
* `src/widgets.rs` — `MessageData`, the `ChatPane` fields relevant to
  rendering, `FormatCacheKey`, `_message_matches_filter`;
* `src/split_view.rs` — `PaneNode` and its operations;
* `src/app.rs` — the display-line assembly of `draw_chat_pane_impl`, the
  focus cycling, `close_pane`, and the chat-list refresh update rule.

Rust strings are modelled as `List Char` (the code does its width arithmetic
on `chars()`; where the source uses byte lengths — `str::len` — we model the
UTF-8 byte count of the character sequence with `charBytes`).  `u32`/`usize`
values that are only compared, added within small bounds, or maxed are
modelled as `Nat`; `usize::saturating_sub` is `Nat` subtraction.  Clock- and
hash-order-dependent pieces (`Local::now`, `HashMap` iteration) are made
explicit parameters or fixed to insertion order, as noted at each definition.
Several recursions whose measure is the length of a shrinking list are
written with an explicit fuel argument initialised to that length, so that
all definitions stay structurally recursive and kernel-evaluable.
-/

/-! ## String / list utilities -/

/-- UTF-8 encoded size in bytes of a character, as used by Rust `str::len`
when summed over a string. -/
def charBytes (c : Char) : Nat :=
  if c.val < 0x80 then 1
  else if c.val < 0x800 then 2
  else if c.val < 0x10000 then 3
  else 4

/-- Byte length of a string (Rust `str::len`). -/
def byteLen (l : List Char) : Nat := (l.map charBytes).sum

/-- Decimal representation of a `Nat` as a character list (Rust `format!`
of an unsigned integer). -/
def natChars (n : Nat) : List Char := (Nat.repr n).toList

/-- Characters of a string literal. -/
def chars (s : String) : List Char := s.toList

/-- First index at which `pat` occurs as a contiguous substring of `l`
(Rust `str::find`). -/
def findSubstr (pat : List Char) : List Char → Option Nat
  | [] => if pat = [] then some 0 else none
  | c :: rest =>
    if pat.isPrefixOf (c :: rest) then some 0
    else (findSubstr pat rest).map (· + 1)

/-- Whether `pat` occurs as a contiguous substring (Rust `str::contains`). -/
def containsSub (pat l : List Char) : Bool := (findSubstr pat l).isSome

/-- Fuelled worker for `listReplace`; the fuel is initialised to the length
of the subject string, which bounds the number of recursion steps. -/
def listReplaceGo (pat rep : List Char) : Nat → List Char → List Char
  | 0, s => s
  | _ + 1, [] => []
  | fuel + 1, c :: rest =>
    if pat ≠ [] ∧ pat.isPrefixOf (c :: rest) then
      rep ++ listReplaceGo pat rep fuel ((c :: rest).drop pat.length)
    else
      c :: listReplaceGo pat rep fuel rest

/-- Replace every non-overlapping occurrence of `pat` (scanning left to
right) by `rep` — Rust `str::replace`. -/
def listReplace (s pat rep : List Char) : List Char :=
  listReplaceGo pat rep s.length s

/-- Rust `char::is_whitespace` / regex `\s`, restricted to the ASCII
whitespace characters that occur in this code base. -/
def isWs (c : Char) : Bool := c = ' ' ∨ c = '\t' ∨ c = '\n' ∨ c = '\r'

/-- Fuelled worker for `splitWs`. -/
def splitWsGo : Nat → List Char → List (List Char)
  | 0, _ => []
  | _ + 1, [] => []
  | fuel + 1, c :: rest =>
    if isWs c then splitWsGo fuel rest
    else
      (c :: rest.takeWhile (fun x => ¬ isWs x)) ::
        splitWsGo fuel (rest.dropWhile (fun x => ¬ isWs x))

/-- Rust `str::split_whitespace`: maximal runs of non-whitespace characters,
empty runs dropped. -/
def splitWs (l : List Char) : List (List Char) := splitWsGo l.length l

/-- Rust `str::trim_start` (over ASCII whitespace). -/
def trimStart (l : List Char) : List Char := l.dropWhile isWs

/-- Rust `str::trim_end` (over ASCII whitespace). -/
def trimEnd (l : List Char) : List Char := (l.reverse.dropWhile isWs).reverse

example : splitWs (chars "a  bb c") = [chars "a", chars "bb", chars "c"] := by decide
example : listReplace (chars "xabxab") (chars "ab") (chars "Y") = chars "xYxY" := by decide
example : findSubstr (chars "bc") (chars "abcd") = some 1 := by decide
example : trimEnd (chars "ab  ") = chars "ab" := by decide
example : (chars "a\n\nb").splitOn '\n' = [chars "a", [], chars "b"] := by decide

/-! ## `formatting.rs`: `wrap_text`

`wrap_text(text, indent, width)` wraps `text` to `width` columns, padding
continuation lines with `indent` spaces; the first emitted line of the whole
result carries no padding.  The Rust function builds a vector `result_lines`
and joins it with `'\n'`; `wrapLines` is that vector. -/

/-- One `result_lines.push(...)` of `wrap_text`: the pushed line is unpadded
exactly when it belongs to the first paragraph and `result_lines` is still
empty. -/
def flushInto (pad : List Char) (firstPara : Bool) (acc : List (List Char))
    (line : List Char) : List (List Char) :=
  acc ++ [if firstPara ∧ acc = [] then line else pad ++ line]

/-- Fuelled worker for `chunksOf`. -/
def chunksGo (cw : Nat) : Nat → List Char → List (List Char)
  | _, [] => []
  | 0, _ :: _ => []
  | fuel + 1, c :: rest => (c :: rest).take cw :: chunksGo cw fuel ((c :: rest).drop cw)

/-- The character-boundary hard-split of an over-long word in `wrap_text`:
successive chunks of at most `cw` characters. -/
def chunksOf (cw : Nat) (w : List Char) : List (List Char) := chunksGo cw w.length w

/-- The `test_line` of `wrap_text`: the current line extended by a space and
the word, or the bare word on an empty current line. -/
def tryJoin (cur word : List Char) : List Char :=
  if cur = [] then word else cur ++ ' ' :: word

/-- The body of `wrap_text`'s `for word in &words` loop.  The state is
`(result_lines, current_line)`. -/
def stepWord (cw : Nat) (pad : List Char) (firstPara : Bool)
    (st : List (List Char) × List Char) (word : List Char) :
    List (List Char) × List Char :=
  if cw < word.length then
    ((chunksOf cw word).foldl (flushInto pad firstPara)
      (if st.2 ≠ [] then flushInto pad firstPara st.1 st.2 else st.1), [])
  else
    if (tryJoin st.2 word).length ≤ cw then (st.1, tryJoin st.2 word)
    else ((if st.2 ≠ [] then flushInto pad firstPara st.1 st.2 else st.1), word)

/-- The body of `wrap_text`'s paragraph loop (`text.split('\n')`,
enumerated). -/
def stepPara (cw : Nat) (pad : List Char) (acc : List (List Char))
    (p : Nat × List Char) : List (List Char) :=
  if p.2 = [] then acc ++ [if 0 < p.1 then pad else []]
  else
    if ((p.2.splitOn ' ').foldl (stepWord cw pad (p.1 = 0)) (acc, [])).2 ≠ [] then
      flushInto pad (p.1 = 0)
        ((p.2.splitOn ' ').foldl (stepWord cw pad (p.1 = 0)) (acc, [])).1
        ((p.2.splitOn ' ').foldl (stepWord cw pad (p.1 = 0)) (acc, [])).2
    else ((p.2.splitOn ' ').foldl (stepWord cw pad (p.1 = 0)) (acc, [])).1

/-- The `result_lines` vector built by `wrap_text` (meaningful when
`indent < width`; the Rust function returns early otherwise). -/
def wrapLines (text : List Char) (indent width : Nat) : List (List Char) :=
  ((text.splitOn '\n').enum).foldl
    (stepPara (width - indent) (List.replicate indent ' ')) []

/-- `wrap_text` from `formatting.rs`: the joined string. -/
def wrap_text (text : List Char) (indent width : Nat) : List Char :=
  if width ≤ indent then text
  else List.intercalate ['\n'] (wrapLines text indent width)

example :
    wrapLines (chars "aa bb cc") 2 5 = [chars "aa", chars "  bb", chars "  cc"] := by
  decide
example :
    wrapLines (chars "abcdefgh x") 1 4 =
      [chars "abc", chars " def", chars " gh", chars " x"] := by decide
example : wrap_text (chars "aa bb cc") 2 5 = chars "aa\n  bb\n  cc" := by decide

/-! ## `formatting.rs`: media labels, reactions, URL shortening, emoji strip -/

/-- Rust `str::to_uppercase` (ASCII suffices for the media-type strings). -/
def upperChars (l : List Char) : List Char := l.map Char.toUpper

/-- Rust `str::to_lowercase` (ASCII suffices here). -/
def lowerChars (l : List Char) : List Char := l.map Char.toLower

/-- `get_media_label` from `formatting.rs`. -/
def get_media_label (media_type : List Char) (title : Option (List Char)) :
    List Char :=
  if media_type = chars "youtube" then
    match title with
    | some t => chars "[YouTube: " ++ t ++ chars "]"
    | none => chars "[YouTube]"
  else if media_type = chars "spotify" then
    match title with
    | some t => chars "[Spotify: " ++ t ++ chars "]"
    | none => chars "[Spotify]"
  else if media_type = chars "photo" then chars "[IMG]"
  else if media_type = chars "video" then chars "[CLIP]"
  else if media_type = chars "audio" then chars "[AUDIO]"
  else if media_type = chars "voice" then chars "[VOICE]"
  else if media_type = chars "video_note" then chars "[VIDEO_NOTE]"
  else if media_type = chars "sticker" then chars "[STICKER]"
  else if media_type = chars "gif" then chars "[GIF]"
  else if media_type = chars "document" then chars "[FILE]"
  else if media_type = chars "contact" then chars "[CONTACT]"
  else if media_type = chars "location" then chars "[LOCATION]"
  else if media_type = chars "poll" then chars "[POLL]"
  else if media_type = chars "dice" then chars "[DICE]"
  else if media_type = chars "game" then chars "[GAME]"
  else '[' :: upperChars media_type ++ [']']

/-- `format_reactions` from `formatting.rs`.  The Rust `HashMap` iteration
order is modelled as the order of the association list. -/
def format_reactions (reactions : List (List Char × Nat)) : List Char :=
  List.intercalate [' ']
    (reactions.map fun p => if 1 < p.2 then natChars p.2 ++ 'x' :: p.1 else p.1)

/-- Membership in the code-point ranges of the `strip_emojis` regex class. -/
def isEmojiChar (c : Char) : Bool :=
  (0x1F600 ≤ c.val ∧ c.val ≤ 0x1F64F) ∨ (0x1F300 ≤ c.val ∧ c.val ≤ 0x1F5FF) ∨
  (0x1F680 ≤ c.val ∧ c.val ≤ 0x1F6FF) ∨ (0x1F700 ≤ c.val ∧ c.val ≤ 0x1F77F) ∨
  (0x1F780 ≤ c.val ∧ c.val ≤ 0x1F7FF) ∨ (0x1F800 ≤ c.val ∧ c.val ≤ 0x1F8FF) ∨
  (0x1F900 ≤ c.val ∧ c.val ≤ 0x1F9FF) ∨ (0x1FA00 ≤ c.val ∧ c.val ≤ 0x1FA6F) ∨
  (0x1FA70 ≤ c.val ∧ c.val ≤ 0x1FAFF) ∨ (0x2600 ≤ c.val ∧ c.val ≤ 0x26FF) ∨
  (0x2700 ≤ c.val ∧ c.val ≤ 0x27BF) ∨ (0xFE00 ≤ c.val ∧ c.val ≤ 0xFE0F) ∨
  c.val = 0x200D

/-- `strip_emojis` from `formatting.rs`: replacing every maximal run of
class characters by the empty string is the same as dropping each such
character. -/
def strip_emojis (text : List Char) : List Char :=
  text.filter (fun c => ¬ isEmojiChar c)

/-- A match of the regex `https?://[^\s]+` starting exactly at the head of
`l`: the matched text and the remaining input. -/
def matchUrlAt (l : List Char) : Option (List Char × List Char) :=
  let base : Option Nat :=
    if (chars "https://").isPrefixOf l then some 8
    else if (chars "http://").isPrefixOf l then some 7
    else none
  match base with
  | none => none
  | some b =>
    let run := (l.drop b).takeWhile (fun c => ¬ isWs c)
    if run = [] then none
    else some (l.take b ++ run, l.drop (b + run.length))

/-- Fuelled worker for `urlMatches`. -/
def urlMatchesGo : Nat → List Char → List (List Char)
  | 0, _ => []
  | _ + 1, [] => []
  | fuel + 1, c :: rest =>
    match matchUrlAt (c :: rest) with
    | some (url, remaining) => url :: urlMatchesGo fuel remaining
    | none => urlMatchesGo fuel rest

/-- The leftmost, non-overlapping matches of `https?://[^\s]+` in `l`
(Rust `Regex::find_iter`). -/
def urlMatches (l : List Char) : List (List Char) := urlMatchesGo l.length l

/-- `shorten_urls` from `formatting.rs`: every matched URL longer than
`max_len` characters is replaced (throughout the current result string) by
its first `max_len` characters followed by `"..."`. -/
def shorten_urls (text : List Char) (max_len : Nat) : List Char :=
  (urlMatches text).foldl
    (fun result url =>
      if max_len < url.length then
        listReplace result url (url.take max_len ++ chars "...")
      else result)
    text

example :
    shorten_urls (chars "see http://abcdefgh now") 5 =
      chars "see http:... now" := by decide
example : urlMatches (chars "x https://a.b c") = [chars "https://a.b"] := by decide

/-! ## `widgets.rs`: message data and the filter predicate -/

/-- `FilterType` from `widgets.rs`. -/
inductive FilterType where
  | sender
  | media
  | link
deriving DecidableEq, Repr

/-- `MessageData` from `widgets.rs`.  Reactions are an association list in
`HashMap` insertion order; the timestamp is an `Int` Unix time. -/
structure MessageData where
  msg_id : List Char
  sender_id : List Char
  sender_name : List Char
  text : List Char
  is_outgoing : Bool
  timestamp : Int
  media_type : Option (List Char)
  media_label : Option (List Char)
  reactions : List (List Char × Nat)
  reply_to_msg_id : Option (List Char)
  reply_sender : Option (List Char)
  reply_text : Option (List Char)
deriving DecidableEq, Repr

/-- `ChatPane::_message_matches_filter` from `widgets.rs`, as a function of
the pane's `filter_type`/`filter_value` fields. -/
def message_matches_filter (filter_type : Option FilterType)
    (filter_value : Option (List Char)) (data : MessageData) : Bool :=
  match filter_type, filter_value with
  | none, _ => true
  | some .sender, some value =>
    containsSub (lowerChars value) (lowerChars data.sender_name)
  | some .media, some value =>
    if value = chars "photo" then data.media_type = some (chars "photo")
    else if value = chars "video" then data.media_type = some (chars "video")
    else if value = chars "audio" then data.media_type = some (chars "audio")
    else if value = chars "voice" then data.media_type = some (chars "voice")
    else if value = chars "document" then data.media_type = some (chars "document")
    else if value = chars "sticker" then data.media_type = some (chars "sticker")
    else if value = chars "gif" then data.media_type = some (chars "gif")
    else data.media_type.isSome
  | some .link, _ =>
    containsSub (chars "http://") data.text ∨ containsSub (chars "https://") data.text
  | some .sender, none => true
  | some .media, none => true

/-! ## `formatting.rs`: `format_messages_for_display`

The Rust function iterates over `msg_data` with `enumerate`, pushing for
each message: the unread divider (when the index equals
`len().saturating_sub(unread_count)` and `unread_count > 0`), an optional
reply-info line, the assembled message line, and a blank separator in
non-compact mode.  `format_timestamp` depends on `Local::now`, so it is
modelled as an explicit parameter `fmtTs`. -/

/-- Alias-table lookup (`aliases.get(&data.sender_id)`). -/
def aliasLookup (aliases : List (List Char × List Char)) (k : List Char) :
    Option (List Char) :=
  (aliases.find? (fun p => p.1 = k)).map (·.2)

/-- The `"<first line, truncated to 50 chars>"` part of a reply-info line. -/
def replyDisplayText (show_emojis : Bool) (t : List Char) : List Char :=
  let rt := if ¬ show_emojis then strip_emojis t else t
  let first_line := rt.takeWhile (fun c => c ≠ '\n')
  if 50 < first_line.length then first_line.take 50 ++ chars "..."
  else first_line

/-- The (zero or one) reply-info lines pushed for a message. -/
def replyLines (full : List MessageData) (aliases : List (List Char × List Char))
    (show_emojis : Bool) (d : MessageData) : List (List Char) :=
  match d.reply_to_msg_id with
  | none => []
  | some rid =>
    match full.find? (fun m => m.msg_id = rid) with
    | some orig =>
      let reply_sender := (aliasLookup aliases orig.sender_id).getD orig.sender_name
      let display_text := replyDisplayText show_emojis orig.text
      let reply_marker := if orig.is_outgoing then chars "[REPLY_TO_ME] " else []
      [reply_marker ++ chars "  ↳ Reply to " ++ reply_sender ++ chars ": " ++ display_text]
    | none =>
      match d.reply_sender, d.reply_text with
      | some rs, some rtext =>
        [chars "  ↳ Reply to " ++ rs ++ chars ": " ++ replyDisplayText show_emojis rtext]
      | _, _ => [chars "  ↳ Reply to message #" ++ rid]

/-- The lines pushed for one message (reply info, message line, optional
blank separator); empty when the message is skipped for having neither text
nor a media label. -/
def msgBlock (full : List MessageData) (width : Nat)
    (compact_mode show_emojis show_reactions show_timestamps show_line_numbers : Bool)
    (aliases : List (List Char × List Char)) (fmtTs : Int → List Char)
    (idx : Nat) (d : MessageData) : List (List Char) :=
  let media_label :=
    match d.media_type with
    | some mt => get_media_label mt none
    | none => d.media_label.getD []
  if d.text = [] ∧ media_label = [] then []
  else
    let sender_name := (aliasLookup aliases d.sender_id).getD d.sender_name
    let timestamp := fmtTs d.timestamp
    let num_str := '#' :: natChars (idx + 1)
    let prefix_len := byteLen sender_name + 2
      + (if show_line_numbers then byteLen num_str + 1 else 0)
      + (if show_timestamps then byteLen timestamp + 1 else 0)
    let text :=
      if d.text ≠ [] then
        let t1 := shorten_urls d.text 60
        let t2 := if ¬ show_emojis then strip_emojis t1 else t1
        let wrapped := wrap_text t2 prefix_len width
        if media_label ≠ [] then media_label ++ ' ' :: wrapped else wrapped
      else media_label
    let reactions_suffix :=
      if show_reactions ∧ d.reactions ≠ [] then
        chars " [" ++ format_reactions d.reactions ++ [']']
      else []
    let parts :=
      (if show_line_numbers then [num_str] else [])
        ++ (if show_timestamps then [timestamp] else [])
        ++ (if d.reply_to_msg_id.isSome then [['^']] else [])
        ++ [(if d.is_outgoing then chars "[OUT]:" else chars "[IN]:")
              ++ d.sender_id ++ ':' :: sender_name ++ ':' :: text]
    let msg_line := List.intercalate [' '] parts ++ reactions_suffix
    replyLines full aliases show_emojis d ++ [msg_line]
      ++ (if ¬ compact_mode then [[]] else [])

/-- The unread divider line `format!("{} {} unread {}", marker, n, marker)`
with `marker = "-".repeat(width / 2)`. -/
def unreadDividerLine (width unread_count : Nat) : List Char :=
  let marker := List.replicate (width / 2) '-'
  marker ++ ' ' :: natChars unread_count ++ chars " unread " ++ marker

/-- The message loop of `format_messages_for_display`, with `idx` the
enumeration counter. -/
def formatBody (full : List MessageData) (width : Nat)
    (compact_mode show_emojis show_reactions show_timestamps show_line_numbers : Bool)
    (aliases : List (List Char × List Char)) (fmtTs : Int → List Char)
    (unread_count : Nat) : List MessageData → Nat → List (List Char)
  | [], _ => []
  | d :: rest, idx =>
    (if 0 < unread_count ∧ idx = full.length - unread_count then
        [unreadDividerLine width unread_count]
      else [])
      ++ msgBlock full width compact_mode show_emojis show_reactions
          show_timestamps show_line_numbers aliases fmtTs idx d
      ++ formatBody full width compact_mode show_emojis show_reactions
          show_timestamps show_line_numbers aliases fmtTs unread_count rest (idx + 1)

/-- The filter-indicator lines pushed before the message loop when a filter
is active. -/
def filterIndicator (filter_type filter_value : Option (List Char)) :
    List (List Char) :=
  match filter_type with
  | some ft =>
    [chars "Filter: " ++ ft ++ '=' :: filter_value.getD []
        ++ chars " (use /filter off to disable)", []]
  | none => []

/-- `format_messages_for_display` from `formatting.rs`. -/
def format_messages_for_display (msg_data : List MessageData) (width : Nat)
    (compact_mode show_emojis show_reactions show_timestamps show_line_numbers : Bool)
    (filter_type filter_value : Option (List Char))
    (unread_count : Nat) (aliases : List (List Char × List Char))
    (fmtTs : Int → List Char) : List (List Char) :=
  filterIndicator filter_type filter_value
    ++ formatBody msg_data width compact_mode show_emojis show_reactions
        show_timestamps show_line_numbers aliases fmtTs unread_count msg_data 0

/-- A plain incoming text message used in the concrete evaluations below. -/
def mkMsg (mid sid sname text : String) : MessageData :=
  { msg_id := chars mid, sender_id := chars sid, sender_name := chars sname,
    text := chars text, is_outgoing := false, timestamp := 0,
    media_type := none, media_label := none, reactions := [],
    reply_to_msg_id := none, reply_sender := none, reply_text := none }

example :
    format_messages_for_display [mkMsg "1" "u" "Bo" "hi"] 20
      true true true false true none none 0 [] (fun _ => []) =
      [chars "#1 [IN]:u:Bo:hi"] := by decide
example :
    format_messages_for_display [mkMsg "1" "u" "Bo" "hi"] 20
      false true true false false none none 1 [] (fun _ => []) =
      [chars "---------- 1 unread ----------", chars "[IN]:u:Bo:hi", []] := by decide

/-! ## `app.rs`: the display-line assembly of `draw_chat_pane_impl`

`draw_chat_pane_impl` builds `display_lines` from the pane state, then turns
each entry into rendered terminal lines.  Styling (colors, spans) is out of
scope; the functions below produce the rendered text lines. -/

/-- The `wrap_plain_text` closure of `draw_chat_pane_impl`.  Its threshold
comparisons use Rust byte lengths (`str::len`); only the over-long-word
split counts characters. -/
def wrap_plain_text (text : List Char) (max_width : Nat) : List (List Char) :=
  if max_width = 0 ∨ byteLen text ≤ max_width then [text]
  else
    let step := fun (st : List (List Char) × List Char) (word : List Char) =>
      if max_width < byteLen st.2 + byteLen word + 1 then
        let lines1 := if st.2 ≠ [] then st.1 ++ [st.2] else st.1
        if max_width < word.length then
          (lines1 ++ [word.take max_width], word.drop max_width)
        else (lines1, word)
      else
        (st.1, if st.2 ≠ [] then st.2 ++ ' ' :: word else word)
    let st := (splitWs text).foldl step ([], [])
    if st.2 ≠ [] then st.1 ++ [st.2] else st.1

/-- The `wrap_message_with_indent` closure of `draw_chat_pane_impl`. -/
def wrap_message_with_indent (pfx sender_name message_text : List Char)
    (max_width : Nat) : List (List Char) :=
  let header := pfx ++ sender_name ++ chars ": "
  let indent_len := header.length
  if max_width = 0 then [header ++ message_text]
  else if max_width ≤ indent_len then wrap_plain_text (header ++ message_text) max_width
  else
    let first_width := max_width - indent_len
    match wrap_plain_text message_text first_width with
    | [] => [trimEnd header]
    | w0 :: rest =>
      (header ++ w0) :: rest.map (fun line => List.replicate indent_len ' ' ++ line)

/-- The per-entry branch of the `message_lines` `flat_map` in
`draw_chat_pane_impl`: reply styling branches, the `[OUT]:`/`[IN]:` marker
parse feeding `wrap_message_with_indent`, plain wrapping otherwise. -/
def displayLinesOf (msg : List Char) (message_width : Nat) : List (List Char) :=
  if msg = [] then [[]]
  else if (chars "[REPLY_TO_ME]").isPrefixOf msg then
    wrap_plain_text (trimStart (listReplace msg (chars "[REPLY_TO_ME]") []))
      message_width
  else if (chars "  ↳ Reply to").isPrefixOf msg then
    wrap_plain_text msg message_width
  else if containsSub (chars "[OUT]:") msg ∨ containsSub (chars "[IN]:") msg then
    let marker :=
      if containsSub (chars "[OUT]:") msg then chars "[OUT]:" else chars "[IN]:"
    match findSubstr marker msg with
    | some marker_pos =>
      let pfx := msg.take marker_pos
      let after_marker := msg.drop (marker_pos + marker.length)
      match findSubstr [':'] after_marker with
      | some fc =>
        let after_id := after_marker.drop (fc + 1)
        match findSubstr [':'] after_id with
        | some sc =>
          wrap_message_with_indent pfx (after_id.take sc) (after_id.drop (sc + 1))
            message_width
        | none => wrap_plain_text msg message_width
      | none => wrap_plain_text msg message_width
    | none => wrap_plain_text msg message_width
  else wrap_plain_text msg message_width

/-- `FormatCacheKey` from `widgets.rs`. -/
structure FormatCacheKey where
  width : Nat
  compact_mode : Bool
  show_emojis : Bool
  show_reactions : Bool
  show_timestamps : Bool
  show_line_numbers : Bool
  msg_count : Nat
  filter_type : Option (List Char)
  filter_value : Option (List Char)
deriving DecidableEq, Repr

/-- The fields of `ChatPane` (`widgets.rs`) that feed the render path.
Transient presentation state (typing indicator, pinned message, reply
preview, online status) takes no part in the claims and is omitted.  The
`format_cache` `HashMap` is an association list. -/
structure ChatPane where
  chat_id : Option (List Char)
  messages : List (List Char)
  msg_data : List MessageData
  filter_type : Option FilterType
  filter_value : Option (List Char)
  unread_count_at_load : Nat
  format_cache : List (FormatCacheKey × List (List Char))

/-- The global display-settings flags held on `App`. -/
structure DisplaySettings where
  compact_mode : Bool
  show_emojis : Bool
  show_reactions : Bool
  show_timestamps : Bool
  show_line_numbers : Bool

/-- The string form of a pane filter used by `draw_chat_pane_impl`. -/
def filterTypeStr : FilterType → List Char
  | .sender => chars "sender"
  | .media => chars "media"
  | .link => chars "link"

/-- The `display_lines` value computed by `draw_chat_pane_impl`
(`app.rs` lines 594–629): rich formatting over the pane's **entire**
`msg_data` when it is non-empty, with the pane's status `messages` appended
after a blank separator; the plain `messages` otherwise.  Note that the
pane's `format_cache` is not consulted. -/
def paneDisplayLines (pane : ChatPane) (message_width : Nat)
    (s : DisplaySettings) (aliases : List (List Char × List Char))
    (fmtTs : Int → List Char) : List (List Char) :=
  if pane.msg_data ≠ [] then
    format_messages_for_display pane.msg_data message_width s.compact_mode
        s.show_emojis s.show_reactions s.show_timestamps s.show_line_numbers
        (pane.filter_type.map filterTypeStr) pane.filter_value
        pane.unread_count_at_load aliases fmtTs
      ++ (if pane.messages ≠ [] then [] :: pane.messages else [])
  else pane.messages

/-- The rendered message lines: every `display_lines` entry expanded by the
`flat_map` of `draw_chat_pane_impl`. -/
def renderedLines (displayLines : List (List Char)) (message_width : Nat) :
    List (List Char) :=
  displayLines.flatMap (fun msg => displayLinesOf msg message_width)

/-- The cache key a memoizing render would use for a pane under the current
settings (the tuple stored in `FormatCacheKey`). -/
def currentCacheKey (pane : ChatPane) (message_width : Nat)
    (s : DisplaySettings) : FormatCacheKey :=
  { width := message_width, compact_mode := s.compact_mode,
    show_emojis := s.show_emojis, show_reactions := s.show_reactions,
    show_timestamps := s.show_timestamps,
    show_line_numbers := s.show_line_numbers,
    msg_count := pane.msg_data.length,
    filter_type := pane.filter_type.map filterTypeStr,
    filter_value := pane.filter_value }

/-- Lookup in a pane's `format_cache`. -/
def cacheLookup (cache : List (FormatCacheKey × List (List Char)))
    (k : FormatCacheKey) : Option (List (List Char)) :=
  (cache.find? (fun p => p.1 = k)).map (·.2)

/-! ## `split_view.rs`: the pane tree -/

/-- `SplitDirection` from `split_view.rs`. -/
inductive SplitDirection where
  | horizontal
  | vertical
deriving DecidableEq, Repr

/-- The orientation flip performed by `toggle_split_direction`. -/
def SplitDirection.flip : SplitDirection → SplitDirection
  | .horizontal => .vertical
  | .vertical => .horizontal

/-- `PaneNode` from `split_view.rs`: `Single(usize)` or a split with an
ordered list of children. -/
inductive PaneNode where
  | single (idx : Nat)
  | split (direction : SplitDirection) (children : List PaneNode)
deriving Repr

mutual

/-- `PaneNode::get_pane_indices`: leaf ids in depth-first, left-to-right
order. -/
def get_pane_indices : PaneNode → List Nat
  | .single idx => [idx]
  | .split _ cs => paneIndicesList cs

/-- `get_pane_indices` over a child list (`flat_map`). -/
def paneIndicesList : List PaneNode → List Nat
  | [] => []
  | c :: cs => get_pane_indices c ++ paneIndicesList cs

end

mutual

/-- `PaneNode::count_panes`: total leaf count. -/
def count_panes : PaneNode → Nat
  | .single _ => 1
  | .split _ cs => countPanesList cs

/-- `count_panes` summed over a child list. -/
def countPanesList : List PaneNode → Nat
  | [] => 0
  | c :: cs => count_panes c + countPanesList cs

end

/-- `PaneNode::split`: replace this node by a `Split` whose children are the
old node followed by `Single(new_pane_idx)`. -/
def PaneNode.rawSplit (t : PaneNode) (direction : SplitDirection)
    (new_pane_idx : Nat) : PaneNode :=
  .split direction [t, .single new_pane_idx]

mutual

/-- `App::split_node_recursive_static` from `app.rs`: find the first leaf
with id `tgt` in pre-order and apply `PaneNode::split` to it; the boolean
reports whether a leaf was found. -/
def splitNodeRec (tgt : Nat) (d : SplitDirection) (new : Nat) :
    PaneNode → PaneNode × Bool
  | .single idx =>
    if idx = tgt then ((PaneNode.single idx).rawSplit d new, true)
    else (.single idx, false)
  | .split sd cs =>
    let r := splitNodeList tgt d new cs
    (.split sd r.1, r.2)

/-- The child loop of `split_node_recursive_static`: stop at the first child
reporting success. -/
def splitNodeList (tgt : Nat) (d : SplitDirection) (new : Nat) :
    List PaneNode → List PaneNode × Bool
  | [] => ([], false)
  | c :: cs =>
    let rc := splitNodeRec tgt d new c
    if rc.2 then (rc.1 :: cs, true)
    else
      let rcs := splitNodeList tgt d new cs
      (rc.1 :: rcs.1, rcs.2)

end

/-- Whether a node is `Single(tgt)` (the direct-child tests in `app.rs` and
`split_view.rs`). -/
def isDirectSingle (tgt : Nat) : PaneNode → Bool
  | .single i => i = tgt
  | .split _ _ => false

mutual

/-- `App::toggle_split_direction_recursive` from `app.rs`: flip the
orientation of the closest split that directly contains `Single(tgt)`. -/
def toggleRec (tgt : Nat) : PaneNode → PaneNode × Bool
  | .single i => (.single i, false)
  | .split d cs =>
    if cs.any (isDirectSingle tgt) then (.split d.flip cs, true)
    else
      let r := toggleList tgt cs
      (.split d r.1, r.2)

/-- The child loop of `toggle_split_direction_recursive`. -/
def toggleList (tgt : Nat) : List PaneNode → List PaneNode × Bool
  | [] => ([], false)
  | c :: cs =>
    let rc := toggleRec tgt c
    if rc.2 then (rc.1 :: cs, true)
    else
      let rcs := toggleList tgt cs
      (rc.1 :: rcs.1, rcs.2)

end

/-- After a direct child removal, a split with exactly one remaining child
collapses into that child (`*self = *child` in the source). -/
def collapseSplit (d : SplitDirection) (cs : List PaneNode) : PaneNode :=
  match cs with
  | [c] => c
  | _ => .split d cs

mutual

/-- `PaneNode::find_and_remove_pane` from `split_view.rs`.  On a `Single`
root it only reports whether the id matches; on a `Split` it removes a
matching direct child (collapsing the split when exactly one child remains)
or recurses. -/
def find_and_remove_pane (tgt : Nat) : PaneNode → PaneNode × Bool
  | .single idx => (.single idx, idx = tgt)
  | .split d cs =>
    match cs.findIdx? (isDirectSingle tgt) with
    | some pos => (collapseSplit d (cs.eraseIdx pos), true)
    | none =>
      let r := removeList tgt cs
      (.split d r.1, r.2)

/-- The recursion loop of `find_and_remove_pane` over children. -/
def removeList (tgt : Nat) : List PaneNode → List PaneNode × Bool
  | [] => ([], false)
  | c :: cs =>
    let rc := find_and_remove_pane tgt c
    if rc.2 then (rc.1 :: cs, true)
    else
      let rcs := removeList tgt cs
      (rc.1 :: rcs.1, rcs.2)

end

/-- The pane trees reachable from a single leaf by the three mutating
operations, each split using a fresh pane id (`new ∉ get_pane_indices`).
Both the searching split used by the orchestrator and the raw
`PaneNode::split` are included. -/
inductive Reach : PaneNode → Prop where
  | base (i : Nat) : Reach (.single i)
  | splitAt (t : PaneNode) (tgt : Nat) (d : SplitDirection) (new : Nat) :
      Reach t → new ∉ get_pane_indices t → Reach (splitNodeRec tgt d new t).1
  | rawSplit (t : PaneNode) (d : SplitDirection) (new : Nat) :
      Reach t → new ∉ get_pane_indices t → Reach (t.rawSplit d new)
  | toggle (t : PaneNode) (tgt : Nat) : Reach t → Reach (toggleRec tgt t).1
  | remove (t : PaneNode) (tgt : Nat) : Reach t → Reach (find_and_remove_pane tgt t).1

example :
    get_pane_indices
      (.split .vertical [.single 0, .split .horizontal [.single 1, .single 2]]) =
      [0, 1, 2] := by decide

example :
    (find_and_remove_pane 1
      (.split .vertical [.single 0, .single 1])).1 = .single 0 := by rfl

example :
    (splitNodeRec 0 .vertical 1 (.single 0)).1 =
      .split .vertical [.single 0, .single 1] := by rfl

/-! ## `app.rs`: focus cycling and `close_pane`

`cycle_focus` / `cycle_focus_reverse` read `get_pane_indices()` and move a
two-part focus state (`focus_on_chat_list`, `focused_pane_idx`).  Their
`mark_pane_chat_read` side effect touches unread counters only, never the
focus state, so it does not appear here. -/

/-- The focus state of `App`: the auxiliary chat list or a pane index. -/
structure FocusState where
  focus_on_chat_list : Bool
  focused_pane_idx : Nat
deriving DecidableEq, Repr

/-- `App::cycle_focus`, as a function of the traversal order `all_panes`. -/
def cycle_focus (all_panes : List Nat) (s : FocusState) : FocusState :=
  if all_panes = [] then s
  else if s.focus_on_chat_list then
    { focus_on_chat_list := false, focused_pane_idx := all_panes.headD 0 }
  else
    match all_panes.findIdx? (fun i => i = s.focused_pane_idx) with
    | some pos =>
      if pos + 1 < all_panes.length then
        { focus_on_chat_list := false, focused_pane_idx := all_panes.getD (pos + 1) 0 }
      else { s with focus_on_chat_list := true }
    | none => { focus_on_chat_list := false, focused_pane_idx := all_panes.headD 0 }

/-- `App::cycle_focus_reverse`. -/
def cycle_focus_reverse (all_panes : List Nat) (s : FocusState) : FocusState :=
  if all_panes = [] then s
  else if s.focus_on_chat_list then
    { focus_on_chat_list := false, focused_pane_idx := all_panes.getLastD 0 }
  else
    match all_panes.findIdx? (fun i => i = s.focused_pane_idx) with
    | some pos =>
      if 0 < pos then
        { focus_on_chat_list := false, focused_pane_idx := all_panes.getD (pos - 1) 0 }
      else { s with focus_on_chat_list := true }
    | none => s

/-- The `App` state touched by `close_pane`: the tree, the pane array (which
`close_pane` never modifies), the focused index, and the `notify` status
message (its expiry instant is real-time state and is not modelled). -/
structure AppPanes where
  pane_tree : PaneNode
  panes : List ChatPane
  focused_pane_idx : Nat
  status_message : Option (List Char)

/-- `App::close_pane` from `app.rs`. -/
def close_pane (st : AppPanes) : AppPanes :=
  if count_panes st.pane_tree ≤ 1 then
    { st with status_message := some (chars "Cannot close the last pane") }
  else
    let r := find_and_remove_pane st.focused_pane_idx st.pane_tree
    if r.2 then
      let remaining := get_pane_indices r.1
      let fp := if remaining ≠ [] then remaining.headD 0 else st.focused_pane_idx
      { st with pane_tree := r.1, focused_pane_idx := fp }
    else
      { st with pane_tree := r.1, status_message := some (chars "Failed to close pane") }

/-! ## `app.rs`: the chat-list refresh update rule

`refresh_chat_list` first normalizes and deduplicates the backend list; the
claims concern the update starting at the `new_chat_ids` computation, so the
model takes the already-deduplicated backend list as input.  The Rust
`HashMap` built from it is an association list with insert-overwrite; its
(unspecified) iteration order for leftover new chats is modelled as
insertion order, which no claim depends on. -/

/-- `ChatInfo` from `whatsapp.rs` (the `_is_channel` field is spelled
`isChannel`). -/
structure ChatInfo where
  id : List Char
  name : List Char
  username : Option (List Char)
  unread : Nat
  isChannel : Bool
  is_group : Bool
deriving DecidableEq, Repr

/-- `deduplicated_chats.into_iter().map(|c| (c.id, c)).collect::<HashMap>()`:
association list with later inserts overwriting earlier ones. -/
def buildChatMap (l : List ChatInfo) : List (List Char × ChatInfo) :=
  l.foldl
    (fun m c =>
      if m.any (fun p => p.1 = c.id) then
        m.map (fun p => if p.1 = c.id then (c.id, c) else p)
      else m ++ [(c.id, c)])
    []

/-- `HashMap` lookup. -/
def mapLookup (m : List (List Char × ChatInfo)) (k : List Char) :
    Option ChatInfo :=
  (m.find? (fun p => p.1 = k)).map (·.2)

/-- `HashMap::remove`. -/
def mapErase (m : List (List Char × ChatInfo)) (k : List Char) :
    List (List Char × ChatInfo) :=
  m.filter (fun p => ¬ p.1 = k)

/-- `self.chats.retain(|c| seen_jids.insert(c.id.clone()))`: keep the first
occurrence of each id. -/
def dedupById : List ChatInfo → List (List Char) → List ChatInfo
  | [], _ => []
  | c :: rest, seen =>
    if c.id ∈ seen then dedupById rest seen
    else c :: dedupById rest (c.id :: seen)

/-- The `for existing_chat in &mut self.chats` update loop: a chat also in
the backend map gets the backend name, and — unless its chat is open in some
pane — `max(local, remote)` unread; its map entry is consumed. -/
def updateExisting (openIds : List (List Char)) :
    List ChatInfo → List (List Char × ChatInfo) →
    List ChatInfo × List (List Char × ChatInfo)
  | [], m => ([], m)
  | c :: rest, m =>
    match mapLookup m c.id with
    | some nc =>
      let u := if c.id ∈ openIds then c.unread else max c.unread nc.unread
      let c1 := { c with name := nc.name, unread := u }
      let r := updateExisting openIds rest (mapErase m c.id)
      (c1 :: r.1, r.2)
    | none =>
      let r := updateExisting openIds rest m
      (c :: r.1, r.2)

/-- `refresh_chat_list` from the `new_chat_ids` computation to the final
`retain`: local dedup, the update loop, addition of genuinely new chats,
and removal of chats that disappeared and are not open. -/
def refresh_chat_list_update (locals deduplicated : List ChatInfo)
    (openIds : List (List Char)) : List ChatInfo :=
  let newIds := deduplicated.map (·.id)
  let m := buildChatMap deduplicated
  let seenIds := locals.map (·.id)
  let locals1 := dedupById locals []
  let r := updateExisting openIds locals1 m
  let added := (r.2.filter (fun p => p.1 ∉ seenIds)).map (·.2)
  (r.1 ++ added).filter (fun c => c.id ∈ newIds ∨ c.id ∈ openIds)


/-! ## Derived definitions used by the claim statements -/

/-- A focus state consistent with the traversal order: on the chat list, or
on a pane that actually occurs in the order. -/
def FocusGood (l : List Nat) (s : FocusState) : Prop :=
  s.focus_on_chat_list = true ∨ s.focused_pane_idx ∈ l

/-- States agreeing on the focus flag, and on the pane when a pane is
focused (the stored pane index is irrelevant while the chat list has
focus). -/
def FocusEquiv (s t : FocusState) : Prop :=
  s.focus_on_chat_list = t.focus_on_chat_list ∧
    (s.focus_on_chat_list = false → s.focused_pane_idx = t.focused_pane_idx)


/-- The message blocks alone (the loop of `format_messages_for_display`
without the unread-divider pushes). -/
def msgBlocks (full : List MessageData) (width : Nat)
    (compact_mode show_emojis show_reactions show_timestamps show_line_numbers : Bool)
    (aliases : List (List Char × List Char)) (fmtTs : Int → List Char) :
    List MessageData → Nat → List (List Char)
  | [], _ => []
  | d :: rest, idx =>
    msgBlock full width compact_mode show_emojis show_reactions
        show_timestamps show_line_numbers aliases fmtTs idx d
      ++ msgBlocks full width compact_mode show_emojis show_reactions
          show_timestamps show_line_numbers aliases fmtTs rest (idx + 1)


/-- The two-message list used by the C5 witness. -/
def msgsC5 : List MessageData := [mkMsg "1" "u" "Bo" "hi", mkMsg "2" "u" "Bo" "yo"]


/-- A photo message (structured media kind `photo`). -/
def mkPhotoMsg (mid sid sname text : String) : MessageData :=
  { mkMsg mid sid sname text with media_type := some (chars "photo") }

/-- The C1 scenario: five messages, exactly two carrying a photo. -/
def msgsC1 : List MessageData :=
  [mkMsg "1" "u" "Ann" "one", mkPhotoMsg "2" "u" "Ann" "two",
   mkMsg "3" "u" "Ann" "three", mkPhotoMsg "4" "u" "Ann" "four",
   mkMsg "5" "u" "Ann" "five"]


/-- The example message text of the claim. -/
def textC9 : List Char :=
  chars "Check https://example.com/very/long/path/that/should/be/shortened/here now"

/-- The embedded URL (64 characters). -/
def urlC9 : List Char :=
  chars "https://example.com/very/long/path/that/should/be/shortened/here"

/-- The claim's message. -/
def msgC9 : MessageData :=
  mkMsg "1" "u1" "Alice"
    "Check https://example.com/very/long/path/that/should/be/shortened/here now"

/-- The formatter output for the claim's message at pane width 40 (compact,
no timestamps, no line numbers, sender `Alice`). -/
def outC9 : List (List Char) :=
  format_messages_for_display [msgC9] 40 true true true false false none none 0
    [] (fun _ => [])


/-! ## Claim C10: `find_and_remove_pane` on a single-leaf tree -/

/-- C10: on a tree that is a single leaf, `find_and_remove_pane(p)` returns
`true` exactly when the leaf's id equals `p`, and the tree is left unchanged
in both cases — the operation itself never removes the last leaf. -/
theorem C10_remove_single_leaf_noop (i p : Nat) :
    (find_and_remove_pane p (.single i)).1 = .single i ∧
      ((find_and_remove_pane p (.single i)).2 = true ↔ i = p) := by
  refine ⟨rfl, ?_⟩
  simp [find_and_remove_pane]

/-! ## Claim C7: closing the last pane is rejected -/

/-- C7: when the pane tree has exactly one leaf, `close_pane` only emits the
"Cannot close the last pane" notification; the tree, the pane array, and
the focused index are all unchanged. -/
theorem C7_close_last_pane_rejected (st : AppPanes)
    (h : count_panes st.pane_tree = 1) :
    close_pane st =
      { st with status_message := some (chars "Cannot close the last pane") } := by
  unfold close_pane
  rw [h]
  simp

/-- Witness for C7 at a concrete single-leaf state. -/
theorem C7_close_last_pane_rejected_witness :
    count_panes (PaneNode.single 0) = 1 ∧
      close_pane ⟨PaneNode.single 0, [], 0, none⟩ =
        { pane_tree := PaneNode.single 0, panes := [], focused_pane_idx := 0,
          status_message := some (chars "Cannot close the last pane") } :=
  ⟨rfl, C7_close_last_pane_rejected ⟨PaneNode.single 0, [], 0, none⟩ rfl⟩

/-! ## Claim C2: the format cache

In the source, `ChatPane::format_cache` is cleared in many places but never
read and never written: the render path (`paneDisplayLines`) recomputes
`format_messages_for_display` on every draw.  The claim that a render with a
previously seen key tuple is served from the cache is therefore false; what
does hold is that a render never depends on the cache at all (so in
particular it never observes a stale entry). -/

/-- C2 counterexample: a pane whose `format_cache` holds an entry for
exactly the current key tuple, yet the render does not return that entry. -/
theorem C2_render_not_served_from_cache :
    cacheLookup
        (ChatPane.mk none [] [mkMsg "1" "u" "Bo" "hi"] none none 0
          [(⟨20, true, true, true, false, true, 1, none, none⟩, [chars "bogus"])]).format_cache
        (currentCacheKey
          (ChatPane.mk none [] [mkMsg "1" "u" "Bo" "hi"] none none 0
            [(⟨20, true, true, true, false, true, 1, none, none⟩, [chars "bogus"])])
          20 ⟨true, true, true, false, true⟩) = some [chars "bogus"] ∧
      paneDisplayLines
        (ChatPane.mk none [] [mkMsg "1" "u" "Bo" "hi"] none none 0
          [(⟨20, true, true, true, false, true, 1, none, none⟩, [chars "bogus"])])
        20 ⟨true, true, true, false, true⟩ [] (fun _ => []) ≠ [chars "bogus"] := by
  constructor
  · decide
  · decide

/-- C2 amended: the render output is a function of the pane's data and the
current settings only — it does not depend on the `format_cache` contents,
so no render ever observes a cache entry, stale or otherwise. -/
theorem C2_render_ignores_cache (pane : ChatPane)
    (cache : List (FormatCacheKey × List (List Char))) (message_width : Nat)
    (s : DisplaySettings) (aliases : List (List Char × List Char))
    (fmtTs : Int → List Char) :
    paneDisplayLines { pane with format_cache := cache } message_width s aliases fmtTs =
      paneDisplayLines pane message_width s aliases fmtTs := rfl

/-! ## Claim C3: `wrap_text` width bound and character-safe hard splits -/

/-- Every line pushed by `flushInto` respects the width bound when the
incoming lines do and the new line fits in the content width. -/
theorem flushInto_bound {pad : List Char} {indent width cw : Nat}
    (hpad : pad.length = indent) (hcw : cw = width - indent) (hiw : indent < width)
    {fp : Bool} {acc : List (List Char)} {line : List Char}
    (hacc : ∀ x ∈ acc, x.length ≤ width) (hline : line.length ≤ cw) :
    ∀ x ∈ flushInto pad fp acc line, x.length ≤ width := by
  intro x hx
  rcases List.mem_append.mp hx with h | h
  · exact hacc x h
  · have hx2 : x = if fp = true ∧ acc = [] then line else pad ++ line := by
      simpa using h
    subst hx2
    split
    · omega
    · simp only [List.length_append, hpad]
      omega

/-- Every chunk produced by the hard split has at most `cw` characters. -/
theorem chunksGo_length_le (cw : Nat) :
    ∀ (fuel : Nat) (w : List Char), ∀ ch ∈ chunksGo cw fuel w, ch.length ≤ cw := by
  intro fuel
  induction fuel with
  | zero =>
    intro w ch hch
    cases w with
    | nil => simp [chunksGo] at hch
    | cons c rest => simp [chunksGo] at hch
  | succ n ih =>
    intro w ch hch
    cases w with
    | nil => simp [chunksGo] at hch
    | cons c rest =>
      simp only [chunksGo, List.mem_cons] at hch
      rcases hch with h | h
      · subst h
        simpa using List.length_take_le cw (c :: rest)
      · exact ih _ ch h

/-- The hard-split chunks concatenate back to the original word: no
character is lost or cut by the split (chunk boundaries are character
boundaries by construction). -/
theorem chunksGo_join (cw : Nat) (hcw : 0 < cw) :
    ∀ (fuel : Nat) (w : List Char), w.length ≤ fuel →
      (chunksGo cw fuel w).flatten = w := by
  intro fuel
  induction fuel with
  | zero =>
    intro w hw
    have : w = [] := List.length_eq_zero.mp (Nat.le_zero.mp hw)
    subst this
    rfl
  | succ n ih =>
    intro w hw
    cases w with
    | nil => rfl
    | cons c rest =>
      simp only [chunksGo, List.flatten_cons]
      rw [ih ((c :: rest).drop cw)]
      · exact List.take_append_drop cw (c :: rest)
      · simp only [List.length_drop, List.length_cons] at *
        omega

/-- The `(result_lines, current_line)` invariant is preserved by one word
step. -/
theorem stepWord_inv {pad : List Char} {indent width cw : Nat}
    (hpad : pad.length = indent) (hcw : cw = width - indent) (hiw : indent < width)
    {fp : Bool} {st : List (List Char) × List Char}
    (h1 : ∀ x ∈ st.1, x.length ≤ width) (h2 : st.2.length ≤ cw)
    (word : List Char) :
    (∀ x ∈ (stepWord cw pad fp st word).1, x.length ≤ width) ∧
      (stepWord cw pad fp st word).2.length ≤ cw := by
  have hflush : ∀ x ∈ (if st.2 ≠ [] then flushInto pad fp st.1 st.2 else st.1),
      x.length ≤ width := by
    split
    · exact flushInto_bound hpad hcw hiw h1 h2
    · exact h1
  unfold stepWord
  split
  · refine ⟨?_, by simp⟩
    intro x hx
    refine List.foldlRecOn (chunksOf cw word) (flushInto pad fp) _
      (motive := fun acc => ∀ y ∈ acc, y.length ≤ width) hflush ?_ x hx
    intro acc hC ch hch
    exact flushInto_bound hpad hcw hiw hC (chunksGo_length_le cw _ _ ch hch)
  · rename_i hlong
    split
    · rename_i hfits
      exact ⟨h1, hfits⟩
    · refine ⟨hflush, ?_⟩
      show word.length ≤ cw
      omega

/-- The line-length invariant holds of the final state of the word fold. -/
theorem wordFold_inv {pad : List Char} {indent width cw : Nat}
    (hpad : pad.length = indent) (hcw : cw = width - indent) (hiw : indent < width)
    (fp : Bool) {acc : List (List Char)} (hacc : ∀ x ∈ acc, x.length ≤ width)
    (ws : List (List Char)) :
    (∀ x ∈ (ws.foldl (stepWord cw pad fp) (acc, [])).1, x.length ≤ width) ∧
      (ws.foldl (stepWord cw pad fp) (acc, [])).2.length ≤ cw := by
  refine List.foldlRecOn ws (stepWord cw pad fp)
    ((acc, []) : List (List Char) × List Char)
    (motive := fun st => (∀ x ∈ st.1, x.length ≤ width) ∧ st.2.length ≤ cw)
    ⟨hacc, by simp⟩ ?_
  intro st hC w _
  exact stepWord_inv hpad hcw hiw hC.1 hC.2 w

/-- The line-length invariant is preserved by one paragraph step. -/
theorem stepPara_inv {pad : List Char} {indent width cw : Nat}
    (hpad : pad.length = indent) (hcw : cw = width - indent) (hiw : indent < width)
    {acc : List (List Char)} (hacc : ∀ x ∈ acc, x.length ≤ width)
    (p : Nat × List Char) :
    ∀ x ∈ stepPara cw pad acc p, x.length ≤ width := by
  have hst := wordFold_inv hpad hcw hiw (decide (p.1 = 0)) hacc (p.2.splitOn ' ')
  unfold stepPara
  split
  · intro x hx
    rcases List.mem_append.mp hx with h | h
    · exact hacc x h
    · simp only [List.mem_singleton] at h
      subst h
      split
      · simp [hpad]
        omega
      · simp
  · split
    · exact flushInto_bound hpad hcw hiw hst.1 hst.2
    · exact hst.1

/-- C3: with `width > indent`, `wrap_text` never emits a line of more than
`width` characters; over-long words are hard-split at character boundaries,
the chunks reassembling exactly to the original word (the embedding works
on character sequences, as the source does via `chars().count()` and
`char_indices`); and `wrap_text` is the newline join of those lines. -/
theorem C3_wrap_text_width (text : List Char) (indent width : Nat)
    (w : List Char) (h : indent < width) :
    (∀ l ∈ wrapLines text indent width, l.length ≤ width) ∧
      (chunksOf (width - indent) w).flatten = w ∧
      wrap_text text indent width =
        List.intercalate ['\n'] (wrapLines text indent width) := by
  refine ⟨?_, ?_, ?_⟩
  · unfold wrapLines
    refine List.foldlRecOn ((text.splitOn '\n').enum)
      (stepPara (width - indent) (List.replicate indent ' '))
      ([] : List (List Char))
      (motive := fun acc => ∀ x ∈ acc, x.length ≤ width) (by simp) ?_
    intro acc hC p _
    exact stepPara_inv (List.length_replicate indent ' ') rfl h hC p
  · exact chunksGo_join (width - indent) (by omega) _ w le_rfl
  · unfold wrap_text
    rw [if_neg (by omega)]

/-- Witness for C3 at concrete inputs, including a word longer than the
content width and a two-byte character. -/
theorem C3_wrap_text_width_witness :
    (1 : Nat) < 4 ∧
      ((∀ l ∈ wrapLines (chars "ab cdéfgh x") 1 4, l.length ≤ 4) ∧
        (chunksOf 3 (chars "cdéfgh")).flatten = chars "cdéfgh" ∧
        wrap_text (chars "ab cdéfgh x") 1 4 =
          List.intercalate ['\n'] (wrapLines (chars "ab cdéfgh x") 1 4)) :=
  ⟨by decide, C3_wrap_text_width (chars "ab cdéfgh x") 1 4 (chars "cdéfgh") (by decide)⟩

/-! ## Claim C4: pane-tree invariants under the mutating operations -/

/-- Mutual induction over `PaneNode` and its child lists. -/
theorem paneInd (P : PaneNode → Prop) (Q : List PaneNode → Prop)
    (hs : ∀ i, P (.single i))
    (hsp : ∀ d cs, Q cs → P (.split d cs))
    (hnil : Q [])
    (hcons : ∀ c cs, P c → Q cs → Q (c :: cs)) :
    (∀ t, P t) ∧ (∀ cs, Q cs) :=
  ⟨fun t => @PaneNode.rec P Q hs hsp hnil hcons t,
   fun cs => @PaneNode.rec_1 P Q hs hsp hnil hcons cs⟩

/-- `count_panes` equals the number of leaf ids listed by
`get_pane_indices`, for every tree. -/
theorem count_panes_eq_length :
    (∀ t, count_panes t = (get_pane_indices t).length) ∧
      (∀ cs, countPanesList cs = (paneIndicesList cs).length) := by
  apply paneInd
  · intro i
    simp [count_panes, get_pane_indices]
  · intro d cs h
    simp [count_panes, get_pane_indices, h]
  · simp [countPanesList, paneIndicesList]
  · intro c cs hc hcs
    simp [countPanesList, paneIndicesList, hc, hcs]

/-- A failed `split_node_recursive_static` search leaves the tree
unchanged. -/
theorem splitNodeRec_false_eq :
    (∀ t, ∀ tgt d new, (splitNodeRec tgt d new t).2 = false →
        (splitNodeRec tgt d new t).1 = t) ∧
      (∀ cs, ∀ tgt d new, (splitNodeList tgt d new cs).2 = false →
        (splitNodeList tgt d new cs).1 = cs) := by
  apply paneInd
  · intro i tgt d new h
    by_cases hi : i = tgt
    · simp [splitNodeRec, hi] at h
    · simp [splitNodeRec, hi]
  · intro sd cs ih tgt d new h
    simp only [splitNodeRec] at h ⊢
    rw [ih tgt d new h]
  · intro tgt d new _
    rfl
  · intro c cs ihc ihcs tgt d new h
    by_cases hb : (splitNodeRec tgt d new c).2 = true
    · simp [splitNodeList, hb] at h
    · have hb2 : (splitNodeRec tgt d new c).2 = false := by
        simpa using hb
      simp only [splitNodeList, hb2, Bool.false_eq_true, if_false] at h ⊢
      rw [ihc tgt d new hb2, ihcs tgt d new h]

/-- A split inserts the fresh id at one position of the index sequence (or,
when the target is absent, leaves the sequence unchanged). -/
theorem splitNodeRec_indices :
    (∀ t, ∀ tgt d new, ∃ pre post,
        get_pane_indices t = pre ++ post ∧
          (get_pane_indices (splitNodeRec tgt d new t).1 = pre ++ post ∨
            get_pane_indices (splitNodeRec tgt d new t).1 = pre ++ new :: post)) ∧
      (∀ cs, ∀ tgt d new, ∃ pre post,
        paneIndicesList cs = pre ++ post ∧
          (paneIndicesList (splitNodeList tgt d new cs).1 = pre ++ post ∨
            paneIndicesList (splitNodeList tgt d new cs).1 = pre ++ new :: post)) := by
  apply paneInd
  · intro i tgt d new
    by_cases hi : i = tgt
    · refine ⟨[i], [], by simp [get_pane_indices], Or.inr ?_⟩
      simp [splitNodeRec, hi, get_pane_indices, PaneNode.rawSplit, paneIndicesList]
    · refine ⟨[i], [], by simp [get_pane_indices], Or.inl ?_⟩
      simp [splitNodeRec, hi, get_pane_indices]
  · intro sd cs ih tgt d new
    obtain ⟨pre, post, h1, h2⟩ := ih tgt d new
    refine ⟨pre, post, by simpa [get_pane_indices] using h1, ?_⟩
    simpa [splitNodeRec, get_pane_indices] using h2
  · intro tgt d new
    exact ⟨[], [], rfl, Or.inl rfl⟩
  · intro c cs ihc ihcs tgt d new
    by_cases hb : (splitNodeRec tgt d new c).2 = true
    · obtain ⟨pre, post, h1, h2⟩ := ihc tgt d new
      refine ⟨pre, post ++ paneIndicesList cs, by simp [paneIndicesList, h1], ?_⟩
      rcases h2 with h2 | h2
      · exact Or.inl (by simp [splitNodeList, hb, paneIndicesList, h2])
      · exact Or.inr (by simp [splitNodeList, hb, paneIndicesList, h2])
    · have hb2 : (splitNodeRec tgt d new c).2 = false := by
        simpa using hb
      have hceq := splitNodeRec_false_eq.1 c tgt d new hb2
      obtain ⟨pre, post, h1, h2⟩ := ihcs tgt d new
      refine ⟨get_pane_indices c ++ pre, post, by simp [paneIndicesList, h1], ?_⟩
      rcases h2 with h2 | h2
      · exact Or.inl (by simp [splitNodeList, hb2, paneIndicesList, hceq, h2])
      · exact Or.inr (by simp [splitNodeList, hb2, paneIndicesList, hceq, h2])

/-- Toggling a split direction never changes the index sequence. -/
theorem toggleRec_indices :
    (∀ t, ∀ tgt, get_pane_indices (toggleRec tgt t).1 = get_pane_indices t) ∧
      (∀ cs, ∀ tgt, paneIndicesList (toggleList tgt cs).1 = paneIndicesList cs) := by
  apply paneInd
  · intro i tgt
    simp [toggleRec]
  · intro sd cs ih tgt
    by_cases hb : cs.any (isDirectSingle tgt) = true
    · simp [toggleRec, hb, get_pane_indices]
    · simp [toggleRec, hb, get_pane_indices, ih tgt]
  · intro tgt
    rfl
  · intro c cs ihc ihcs tgt
    by_cases hb : (toggleRec tgt c).2 = true
    · simp [toggleList, hb, paneIndicesList, ihc tgt]
    · simp [toggleList, hb, paneIndicesList, ihc tgt, ihcs tgt]

/-- Erasing one child keeps the remaining index sequence a subsequence. -/
theorem paneIndicesList_eraseIdx_sublist (cs : List PaneNode) (pos : Nat) :
    (paneIndicesList (cs.eraseIdx pos)).Sublist (paneIndicesList cs) := by
  induction cs generalizing pos with
  | nil => simp [List.eraseIdx]
  | cons c rest ih =>
    cases pos with
    | zero =>
      simp only [List.eraseIdx_cons_zero, paneIndicesList]
      exact List.sublist_append_right _ _
    | succ n =>
      simp only [List.eraseIdx_cons_succ, paneIndicesList]
      exact List.Sublist.append_left (ih n) _

/-- The collapse of a one-child split preserves the index sequence. -/
theorem collapseSplit_indices (d : SplitDirection) (cs : List PaneNode) :
    get_pane_indices (collapseSplit d cs) = paneIndicesList cs := by
  match cs with
  | [c] => simp [collapseSplit, get_pane_indices, paneIndicesList]
  | [] => simp [collapseSplit, get_pane_indices]
  | c1 :: c2 :: rest => simp [collapseSplit, get_pane_indices]

/-- `find_and_remove_pane` only ever deletes from the index sequence. -/
theorem remove_indices_sublist :
    (∀ t, ∀ tgt,
        (get_pane_indices (find_and_remove_pane tgt t).1).Sublist (get_pane_indices t)) ∧
      (∀ cs, ∀ tgt,
        (paneIndicesList (removeList tgt cs).1).Sublist (paneIndicesList cs)) := by
  apply paneInd
  · intro i tgt
    simp [find_and_remove_pane]
  · intro sd cs ih tgt
    cases hf : cs.findIdx? (isDirectSingle tgt) with
    | some pos =>
      have : get_pane_indices (find_and_remove_pane tgt (.split sd cs)).1 =
          paneIndicesList (cs.eraseIdx pos) := by
        simp [find_and_remove_pane, hf, collapseSplit_indices]
      rw [this]
      simpa [get_pane_indices] using paneIndicesList_eraseIdx_sublist cs pos
    | none =>
      simp only [find_and_remove_pane, hf, get_pane_indices]
      exact ih tgt
  · intro tgt
    simp [removeList]
  · intro c cs ihc ihcs tgt
    by_cases hb : (find_and_remove_pane tgt c).2 = true
    · simp only [removeList, hb, if_true, paneIndicesList]
      exact List.Sublist.append (ihc tgt) (List.Sublist.refl _)
    · simp only [removeList, hb, Bool.false_eq_true, if_false, paneIndicesList]
      exact List.Sublist.append (ihc tgt) (ihcs tgt)

/-- `PaneNode::split` at the root appends the fresh id. -/
theorem rawSplit_indices (t : PaneNode) (d : SplitDirection) (new : Nat) :
    get_pane_indices (t.rawSplit d new) = get_pane_indices t ++ [new] := by
  simp [PaneNode.rawSplit, get_pane_indices, paneIndicesList]

/-- Inserting a fresh element anywhere preserves `Nodup`. -/
theorem nodup_insert_middle (pre post : List Nat) (new : Nat)
    (h : (pre ++ post).Nodup) (hn : new ∉ pre ++ post) :
    (pre ++ new :: post).Nodup := by
  rw [List.nodup_middle]
  exact List.nodup_cons.mpr ⟨hn, h⟩

/-- C4: every tree reachable from a single leaf by splits with fresh ids,
direction toggles and removals has pairwise-distinct leaf ids, and
`count_panes()` equals `get_pane_indices().len()`. -/
theorem C4_pane_tree_invariant (t : PaneNode) (h : Reach t) :
    (get_pane_indices t).Nodup ∧
      count_panes t = (get_pane_indices t).length := by
  refine ⟨?_, count_panes_eq_length.1 t⟩
  induction h with
  | base i => simp [get_pane_indices]
  | splitAt t0 tgt d new ht hfresh ih =>
    obtain ⟨pre, post, h1, h2⟩ := splitNodeRec_indices.1 t0 tgt d new
    rw [h1] at ih hfresh
    rcases h2 with h2 | h2
    · rw [h2]
      exact ih
    · rw [h2]
      exact nodup_insert_middle pre post new ih hfresh
  | rawSplit t0 d new ht hfresh ih =>
    rw [rawSplit_indices]
    exact nodup_insert_middle (get_pane_indices t0) [] new
      (by simpa using ih) (by simpa using hfresh)
  | toggle t0 tgt ht ih =>
    rw [toggleRec_indices.1 t0 tgt]
    exact ih
  | remove t0 tgt ht ih =>
    exact (remove_indices_sublist.1 t0 tgt).nodup ih

/-- Witness for C4: a two-leaf tree built by one fresh split. -/
theorem C4_pane_tree_invariant_witness :
    Reach (PaneNode.split .vertical [.single 0, .single 1]) ∧
      ((get_pane_indices (PaneNode.split .vertical [.single 0, .single 1])).Nodup ∧
        count_panes (PaneNode.split .vertical [.single 0, .single 1]) =
          (get_pane_indices (PaneNode.split .vertical [.single 0, .single 1])).length) := by
  have hr : Reach (PaneNode.split .vertical [.single 0, .single 1]) := by
    have h1 := Reach.splitAt (PaneNode.single 0) 0 .vertical 1 (Reach.base 0) (by decide)
    exact h1
  exact ⟨hr, C4_pane_tree_invariant _ hr⟩

/-! ## Claim C8: forward/backward focus cycling round-trips -/

theorem FocusEquiv.refl (s : FocusState) : FocusEquiv s s := ⟨rfl, fun _ => rfl⟩

theorem FocusEquiv.trans {s t u : FocusState} (h1 : FocusEquiv s t)
    (h2 : FocusEquiv t u) : FocusEquiv s u := by
  refine ⟨h1.1.trans h2.1, fun hf => (h1.2 hf).trans (h2.2 ?_)⟩
  rw [← h1.1]
  exact hf

theorem headD_mem {l : List Nat} (h : l ≠ []) : l.headD 0 ∈ l := by
  cases l with
  | nil => exact absurd rfl h
  | cons a t => simp

theorem getD_mem {l : List Nat} {k : Nat} (h : k < l.length) : l.getD k 0 ∈ l := by
  rw [List.getD_eq_getElem?_getD, List.getElem?_eq_getElem h]
  exact List.getElem_mem h

theorem getLastD_eq_getD {l : List Nat} (h : l ≠ []) :
    l.getLastD 0 = l.getD (l.length - 1) 0 := by
  rw [List.getLastD_eq_getLast?, List.getLast?_eq_getElem?, List.getD_eq_getElem?_getD]

theorem getLastD_mem {l : List Nat} (h : l ≠ []) : l.getLastD 0 ∈ l := by
  rw [getLastD_eq_getD h]
  apply getD_mem
  have : 0 < l.length := List.length_pos.mpr h
  omega

/-- `position()` on a member element: some index pointing at it. -/
theorem findIdx?_of_mem {x : Nat} {l : List Nat} (h : x ∈ l) :
    ∃ pos, l.findIdx? (fun i => i = x) = some pos ∧ pos < l.length ∧
      l.getD pos 0 = x := by
  induction l with
  | nil => cases h
  | cons a t ih =>
    by_cases hax : a = x
    · exact ⟨0, by simp [List.findIdx?_cons, hax], by simp, by simp [hax]⟩
    · have hxt : x ∈ t := by
        rcases List.mem_cons.mp h with h1 | h1
        · exact absurd h1.symm hax
        · exact h1
      obtain ⟨pos, h1, h2, h3⟩ := ih hxt
      refine ⟨pos + 1, ?_, by simpa using h2, by simpa using h3⟩
      rw [List.findIdx?_cons, if_neg (by simpa using hax), List.findIdx?_succ, h1]
      rfl

/-- On a duplicate-free order the first index of the element at position `k`
is `k` itself. -/
theorem findIdx?_getD_of_nodup {l : List Nat} (hnd : l.Nodup) {k : Nat}
    (hk : k < l.length) :
    l.findIdx? (fun i => i = l.getD k 0) = some k := by
  induction l generalizing k with
  | nil => simp at hk
  | cons a t ih =>
    cases k with
    | zero => simp [List.findIdx?_cons]
    | succ n =>
      have hn : n < t.length := by simpa using hk
      have hmem : t.getD n 0 ∈ t := getD_mem hn
      have hna : ¬ a = t.getD n 0 := by
        intro heq
        exact (List.nodup_cons.mp hnd).1 (heq ▸ hmem)
      rw [List.getD_cons_succ, List.findIdx?_cons, if_neg (by simpa using hna),
        List.findIdx?_succ, ih (List.nodup_cons.mp hnd).2 hn]
      rfl

/-- Forward cycling keeps the focus state consistent. -/
theorem cycle_focus_good {l : List Nat} {s : FocusState} (h : FocusGood l s) :
    FocusGood l (cycle_focus l s) := by
  unfold cycle_focus
  by_cases hl : l = []
  · simpa [hl] using h
  · rw [if_neg hl]
    by_cases hf : s.focus_on_chat_list
    · simp only [hf, if_true]
      exact Or.inr (headD_mem hl)
    · simp only [hf, Bool.false_eq_true, if_false]
      cases hfind : l.findIdx? (fun i => i = s.focused_pane_idx) with
      | some pos =>
        simp only
        split
        · rename_i hlt
          exact Or.inr (getD_mem hlt)
        · exact Or.inl rfl
      | none => exact Or.inr (headD_mem hl)

/-- Computation rule: forward cycling from the chat list. -/
theorem cycle_focus_onList {l : List Nat} (hl : l ≠ []) (f : Nat) :
    cycle_focus l ⟨true, f⟩ = ⟨false, l.headD 0⟩ := by
  unfold cycle_focus
  rw [if_neg hl]
  rfl

/-- Computation rule: forward cycling from a pane found at `pos`. -/
theorem cycle_focus_onPane {l : List Nat} (hl : l ≠ []) {f pos : Nat}
    (hfind : l.findIdx? (fun i => i = f) = some pos) :
    cycle_focus l ⟨false, f⟩ =
      if pos + 1 < l.length then ⟨false, l.getD (pos + 1) 0⟩ else ⟨true, f⟩ := by
  unfold cycle_focus
  rw [if_neg hl]
  dsimp only
  rw [hfind]
  rfl

/-- Computation rule: backward cycling from the chat list. -/
theorem cycle_focus_reverse_onList {l : List Nat} (hl : l ≠ []) (f : Nat) :
    cycle_focus_reverse l ⟨true, f⟩ = ⟨false, l.getLastD 0⟩ := by
  unfold cycle_focus_reverse
  rw [if_neg hl]
  rfl

/-- Computation rule: backward cycling from a pane found at `pos`. -/
theorem cycle_focus_reverse_onPane {l : List Nat} (hl : l ≠ []) {f pos : Nat}
    (hfind : l.findIdx? (fun i => i = f) = some pos) :
    cycle_focus_reverse l ⟨false, f⟩ =
      if 0 < pos then ⟨false, l.getD (pos - 1) 0⟩ else ⟨true, f⟩ := by
  unfold cycle_focus_reverse
  rw [if_neg hl]
  dsimp only
  rw [hfind]
  rfl

/-- A found index is in range. -/
theorem findIdx?_some_lt {p : Nat → Bool} {l : List Nat} {pos : Nat}
    (h : l.findIdx? p = some pos) : pos < l.length := by
  induction l generalizing pos with
  | nil => simp [List.findIdx?] at h
  | cons a t ih =>
    rw [List.findIdx?_cons] at h
    by_cases hpa : p a = true
    · rw [if_pos hpa] at h
      simp only [Option.some.injEq] at h
      simp [← h]
    · rw [if_neg hpa, List.findIdx?_succ] at h
      cases ht : t.findIdx? p with
      | none =>
        rw [ht] at h
        simp at h
      | some q =>
        rw [ht] at h
        simp at h
        have := ih ht
        simp only [List.length_cons]
        omega

/-- Backward cycling keeps the focus state consistent. -/
theorem cycle_focus_reverse_good {l : List Nat} {s : FocusState}
    (h : FocusGood l s) : FocusGood l (cycle_focus_reverse l s) := by
  obtain ⟨flag, f⟩ := s
  by_cases hl : l = []
  · simpa [cycle_focus_reverse, hl] using h
  · cases flag with
    | true =>
      rw [cycle_focus_reverse_onList hl]
      exact Or.inr (getLastD_mem hl)
    | false =>
      have hmem : f ∈ l := by
        rcases h with h | h
        · exact absurd h Bool.false_ne_true
        · exact h
      obtain ⟨pos, h1, h2, h3⟩ := findIdx?_of_mem hmem
      rw [cycle_focus_reverse_onPane hl h1]
      split
      · refine Or.inr (getD_mem ?_)
        omega
      · exact Or.inl rfl

/-- One backward step undoes one forward step, up to the stored-index
ambiguity of chat-list states. -/
theorem cycle_back_forward {l : List Nat} (hnd : l.Nodup) {s : FocusState}
    (h : FocusGood l s) :
    FocusEquiv (cycle_focus_reverse l (cycle_focus l s)) s := by
  obtain ⟨flag, fidx⟩ := s
  by_cases hl : l = []
  · simp [cycle_focus, cycle_focus_reverse, hl, FocusEquiv.refl]
  · cases flag with
    | true =>
      rw [cycle_focus_onList hl]
      have hhead : l.headD 0 = l.getD 0 0 := by
        cases l with
        | nil => exact absurd rfl hl
        | cons a t => simp
      have hfind : l.findIdx? (fun i => i = l.headD 0) = some 0 := by
        rw [hhead]
        exact findIdx?_getD_of_nodup hnd (List.length_pos.mpr hl)
      rw [cycle_focus_reverse_onPane hl hfind, if_neg (by omega)]
      exact ⟨rfl, fun hx => by simp at hx⟩
    | false =>
      have hmem : fidx ∈ l := by
        rcases h with h | h
        · exact absurd h Bool.false_ne_true
        · exact h
      obtain ⟨pos, h1, h2, h3⟩ := findIdx?_of_mem hmem
      rw [cycle_focus_onPane hl h1]
      by_cases hlt : pos + 1 < l.length
      · rw [if_pos hlt]
        have hfind2 := findIdx?_getD_of_nodup hnd hlt
        rw [cycle_focus_reverse_onPane hl hfind2, if_pos (by omega)]
        have harith : pos + 1 - 1 = pos := by omega
        rw [harith, h3]
        exact FocusEquiv.refl _
      · rw [if_neg hlt]
        rw [cycle_focus_reverse_onList hl]
        have hlast : l.getLastD 0 = fidx := by
          rw [getLastD_eq_getD hl]
          have harith : l.length - 1 = pos := by omega
          rw [harith, h3]
        rw [hlast]
        exact FocusEquiv.refl _

/-- Backward cycling respects the focus equivalence. -/
theorem cycle_focus_reverse_congr {l : List Nat} {s t : FocusState}
    (h : FocusEquiv s t) :
    FocusEquiv (cycle_focus_reverse l s) (cycle_focus_reverse l t) := by
  by_cases hf : s.focus_on_chat_list
  · have htf : t.focus_on_chat_list = true := by rw [← h.1, hf]
    by_cases hl : l = []
    · simpa [cycle_focus_reverse, hl] using h
    · have h1 : cycle_focus_reverse l s = ⟨false, l.getLastD 0⟩ := by
        simp [cycle_focus_reverse, hl, hf]
      have h2 : cycle_focus_reverse l t = ⟨false, l.getLastD 0⟩ := by
        simp [cycle_focus_reverse, hl, htf]
      rw [h1, h2]
      exact FocusEquiv.refl _
  · have hst : s = t := by
      have hf2 : s.focus_on_chat_list = false := by simpa using hf
      cases s
      cases t
      simp only at hf2
      subst hf2
      have := h.1.symm
      have hidx := h.2 rfl
      simp only at hidx this ⊢
      subst hidx
      rw [← this]
    rw [hst]
    exact FocusEquiv.refl _

/-- Iterated backward cycling respects the focus equivalence. -/
theorem cycle_focus_reverse_iter_congr {l : List Nat} (k : Nat)
    {s t : FocusState} (h : FocusEquiv s t) :
    FocusEquiv ((cycle_focus_reverse l)^[k] s) ((cycle_focus_reverse l)^[k] t) := by
  induction k generalizing s t with
  | zero => exact h
  | succ n ih =>
    rw [Function.iterate_succ_apply, Function.iterate_succ_apply]
    exact ih (cycle_focus_reverse_congr h)

/-- Iterated forward cycling keeps the focus state consistent. -/
theorem cycle_focus_iter_good {l : List Nat} (k : Nat) {s : FocusState}
    (h : FocusGood l s) : FocusGood l ((cycle_focus l)^[k] s) := by
  induction k generalizing s with
  | zero => exact h
  | succ n ih =>
    rw [Function.iterate_succ_apply]
    exact ih (cycle_focus_good h)

/-- `k` backward steps undo `k` forward steps on consistent states. -/
theorem cycle_roundtrip_iter {l : List Nat} (hnd : l.Nodup) (k : Nat)
    (s : FocusState) (h : FocusGood l s) :
    FocusEquiv ((cycle_focus_reverse l)^[k] ((cycle_focus l)^[k] s)) s := by
  induction k with
  | zero => exact FocusEquiv.refl s
  | succ n ih =>
    rw [Function.iterate_succ_apply' (cycle_focus l),
      Function.iterate_succ_apply (cycle_focus_reverse l)]
    have hg : FocusGood l ((cycle_focus l)^[n] s) := cycle_focus_iter_good n h
    have hrt := cycle_back_forward hnd hg
    exact (cycle_focus_reverse_iter_congr n hrt).trans ih

/-- C8: starting from the auxiliary chat list, forward-cycling `k` times and
then backward-cycling `k` times over an unchanged pane tree (whose leaf ids
are pairwise distinct, the data-model invariant) returns focus to the
auxiliary chat list. -/
theorem C8_cycle_focus_roundtrip (t : PaneNode) (k f : Nat)
    (h : (get_pane_indices t).Nodup) :
    ((cycle_focus_reverse (get_pane_indices t))^[k]
        ((cycle_focus (get_pane_indices t))^[k]
          ⟨true, f⟩)).focus_on_chat_list = true :=
  (cycle_roundtrip_iter h k ⟨true, f⟩ (Or.inl rfl)).1

/-- Witness for C8 on a two-pane tree with three steps. -/
theorem C8_cycle_focus_roundtrip_witness :
    (get_pane_indices (PaneNode.split .vertical [.single 0, .single 1])).Nodup ∧
      ((cycle_focus_reverse
          (get_pane_indices (PaneNode.split .vertical [.single 0, .single 1])))^[3]
        ((cycle_focus
          (get_pane_indices (PaneNode.split .vertical [.single 0, .single 1])))^[3]
          ⟨true, 7⟩)).focus_on_chat_list = true :=
  ⟨by decide,
    C8_cycle_focus_roundtrip (PaneNode.split .vertical [.single 0, .single 1]) 3 7
      (by decide)⟩

/-! ## Claim C5: the unread divider -/

/-- Past the divider position the loop emits plain message blocks. -/
theorem formatBody_noMarker (full : List MessageData) (width : Nat)
    (cm se sr st sl : Bool) (aliases : List (List Char × List Char))
    (fmtTs : Int → List Char) (unread : Nat) :
    ∀ (msgs : List MessageData) (idx : Nat), full.length - unread < idx →
      formatBody full width cm se sr st sl aliases fmtTs unread msgs idx =
        msgBlocks full width cm se sr st sl aliases fmtTs msgs idx := by
  intro msgs
  induction msgs with
  | nil =>
    intro idx _
    rfl
  | cons d rest ih =>
    intro idx hk
    simp only [formatBody, msgBlocks]
    rw [if_neg (by omega), ih (idx + 1) (by omega)]
    simp

/-- The loop splits at the divider position: blocks before, the divider,
blocks after. -/
theorem formatBody_decomp (full : List MessageData) (width : Nat)
    (cm se sr st sl : Bool) (aliases : List (List Char × List Char))
    (fmtTs : Int → List Char) (unread : Nat) (hu : 0 < unread) :
    ∀ (msgs : List MessageData) (idx : Nat),
      idx ≤ full.length - unread →
      full.length - unread < idx + msgs.length →
      formatBody full width cm se sr st sl aliases fmtTs unread msgs idx =
        msgBlocks full width cm se sr st sl aliases fmtTs
            (msgs.take (full.length - unread - idx)) idx
          ++ unreadDividerLine width unread
            :: msgBlocks full width cm se sr st sl aliases fmtTs
              (msgs.drop (full.length - unread - idx)) (full.length - unread) := by
  intro msgs
  induction msgs with
  | nil =>
    intro idx h1 h2
    simp only [List.length_nil] at h2
    omega
  | cons d rest ih =>
    intro idx h1 h2
    by_cases hik : idx = full.length - unread
    · simp only [formatBody]
      rw [if_pos ⟨hu, hik⟩,
        formatBody_noMarker full width cm se sr st sl aliases fmtTs unread rest
          (idx + 1) (by omega)]
      have h0 : full.length - unread - idx = 0 := by omega
      rw [h0]
      simp only [List.take_zero, List.drop_zero, msgBlocks, ← hik]
      simp
    · have hlt : idx < full.length - unread := by omega
      simp only [formatBody]
      rw [if_neg (by omega),
        ih (idx + 1) (by omega) (by simp only [List.length_cons] at h2; omega)]
      have hsplit : full.length - unread - idx =
          (full.length - unread - (idx + 1)) + 1 := by omega
      rw [hsplit, List.take_succ_cons, List.drop_succ_cons]
      simp only [msgBlocks]
      simp

/-- C5 counterexample: at width 10 and unread count 1, the emitted divider
line contains ten dash characters, not `width / 2 = 5` — the source writes
`"-".repeat(width / 2)` on each side of the `"<count> unread"` text. -/
theorem C5_divider_dash_count :
    ((format_messages_for_display [mkMsg "1" "u" "Bo" "hi"] 10 true true true
        false false none none 1 [] (fun _ => [])).headD []).count '-' = 10 ∧
      ¬ (((format_messages_for_display [mkMsg "1" "u" "Bo" "hi"] 10 true true true
        false false none none 1 [] (fun _ => [])).headD []).count '-' = 10 / 2) := by
  constructor
  · decide
  · decide

/-- C5 amended: for a non-empty message list and an unread count above zero,
the formatter inserts exactly one divider line immediately before the block
of the message at position `total − unread` (saturating), and that line is
`"-".repeat(width/2)` on **each** side of `" <count> unread "`. -/
theorem C5_unread_divider (msgs : List MessageData) (width : Nat)
    (cm se sr st sl : Bool) (ft fv : Option (List Char))
    (unread : Nat) (aliases : List (List Char × List Char))
    (fmtTs : Int → List Char) (h1 : 0 < unread) (h2 : msgs ≠ []) :
    format_messages_for_display msgs width cm se sr st sl ft fv unread aliases fmtTs =
      filterIndicator ft fv
        ++ msgBlocks msgs width cm se sr st sl aliases fmtTs
            (msgs.take (msgs.length - unread)) 0
        ++ unreadDividerLine width unread
          :: msgBlocks msgs width cm se sr st sl aliases fmtTs
              (msgs.drop (msgs.length - unread)) (msgs.length - unread) ∧
      unreadDividerLine width unread =
        List.replicate (width / 2) '-' ++ ' ' :: natChars unread
          ++ chars " unread " ++ List.replicate (width / 2) '-' := by
  constructor
  · unfold format_messages_for_display
    rw [formatBody_decomp msgs width cm se sr st sl aliases fmtTs unread h1 msgs 0
      (by omega) (by have := List.length_pos.mpr h2; omega)]
    simp
  · rfl

/-- Witness for C5 at a concrete two-message pane with one unread. -/
theorem C5_unread_divider_witness :
    0 < 1 ∧ msgsC5 ≠ [] ∧
      (format_messages_for_display msgsC5 10 true true true false false none none 1
          [] (fun _ => []) =
        filterIndicator none none
          ++ msgBlocks msgsC5 10 true true true false false [] (fun _ => [])
              (msgsC5.take (msgsC5.length - 1)) 0
          ++ unreadDividerLine 10 1
            :: msgBlocks msgsC5 10 true true true false false [] (fun _ => [])
                (msgsC5.drop (msgsC5.length - 1)) (msgsC5.length - 1) ∧
        unreadDividerLine 10 1 =
          List.replicate 5 '-' ++ ' ' :: natChars 1
            ++ chars " unread " ++ List.replicate 5 '-') :=
  ⟨Nat.one_pos, by decide,
    C5_unread_divider msgsC5 10 true true true false false none none 1 []
      (fun _ => []) Nat.one_pos (by decide)⟩

/-! ## Claim C1: filtering before numbering

`_message_matches_filter` exists in `widgets.rs` but is never called: the
render path hands the pane's entire `msg_data` to
`format_messages_for_display`, which only prints a filter-indicator line and
numbers every message by its position in the unfiltered list. -/

/-- C1, evaluated at the failing input: with the `Media="photo"` filter
active on five messages of which exactly two match the pane's own filter
predicate, the displayed output still contains five message entries, the
last one numbered `#5` — the filter drops nothing and numbering runs over
the unfiltered list, contradicting the claim's two entries `#1`/`#2`. -/
theorem C1_filter_never_applied :
    (msgsC1.filter
        (message_matches_filter (some .media) (some (chars "photo")))).length = 2 ∧
      ((format_messages_for_display msgsC1 40 true true true false true
          (some (chars "media")) (some (chars "photo")) 0 [] (fun _ => [])).filter
        (fun ln => containsSub (chars "[IN]:") ln)).length = 5 ∧
      (format_messages_for_display msgsC1 40 true true true false true
          (some (chars "media")) (some (chars "photo")) 0 [] (fun _ => [])).any
        (fun ln => (chars "#5 ").isPrefixOf ln) = true := by
  refine ⟨by decide, by decide, by decide⟩

/-! ## Claim C9: URL shortening at width 40

`format_messages_for_display` calls `shorten_urls(text, 60)`: a URL is
truncated to its first **60** characters plus `"..."`, not 30. -/

/-- C9 counterexample: the displayed output contains 31 consecutive
characters of the URL — impossible had the URL been truncated to at most 30
characters plus `"..."`.  In fact `shorten_urls` keeps the first 60 URL
characters and appends `"..."`, a 63-character run. -/
theorem C9_url_not_truncated_to_30 :
    containsSub (urlC9.take 31) (outC9.headD []) = true ∧
      urlMatches (shorten_urls textC9 60) = [urlC9.take 60 ++ chars "..."] ∧
      (urlC9.take 60 ++ chars "...").length = 63 := by
  refine ⟨by decide, by decide, by decide⟩

/-- C9 amended: at pane width 40 the URL is truncated to its first 60
characters plus `"..."`, and every rendered display line fits within 40
columns. -/
theorem C9_truncated_at_60_fits_40 :
    (∀ ln ∈ renderedLines outC9 40, ln.length ≤ 40) ∧
      urlMatches (shorten_urls textC9 60) = [urlC9.take 60 ++ chars "..."] := by
  refine ⟨by decide, by decide⟩

/-! ## Claim C6: the chat-list refresh unread rule -/

/-- A successful `find?` survives appending on the right. -/
theorem find?_append_left {α : Type} {p : α → Bool} {l1 : List α} (l2 : List α)
    {a : α} (h : l1.find? p = some a) : (l1 ++ l2).find? p = some a := by
  induction l1 with
  | nil => simp at h
  | cons x t ih =>
    by_cases hx : p x = true
    · rw [List.find?_cons_of_pos _ hx] at h
      rw [List.cons_append, List.find?_cons_of_pos _ hx]
      exact h
    · rw [List.find?_cons_of_neg _ hx] at h
      rw [List.cons_append, List.find?_cons_of_neg _ hx]
      exact ih h

/-- A successful `find?` survives a filter that keeps the found element. -/
theorem find?_filter {α : Type} {p q : α → Bool} {l : List α} {a : α}
    (h : l.find? p = some a) (hq : q a = true) :
    (l.filter q).find? p = some a := by
  induction l with
  | nil => simp at h
  | cons x t ih =>
    by_cases hx : p x = true
    · rw [List.find?_cons_of_pos _ hx] at h
      obtain rfl : x = a := by simpa using h
      rw [List.filter_cons_of_pos hq, List.find?_cons_of_pos _ hx]
    · rw [List.find?_cons_of_neg _ hx] at h
      by_cases hqx : q x = true
      · rw [List.filter_cons_of_pos hqx, List.find?_cons_of_neg _ hx]
        exact ih h
      · rw [List.filter_cons_of_neg (by simpa using hqx)]
        exact ih h

/-- Local dedup keeps the first occurrence of an id not yet seen. -/
theorem find?_dedupById (cid : List Char) :
    ∀ (l : List ChatInfo) (seen : List (List Char)), cid ∉ seen →
      (dedupById l seen).find? (fun x => x.id = cid) =
        l.find? (fun x => x.id = cid) := by
  intro l
  induction l with
  | nil =>
    intro seen _
    rfl
  | cons c rest ih =>
    intro seen hseen
    by_cases hc : c.id ∈ seen
    · have hne : ¬ (decide (c.id = cid) = true) := by
        simp only [decide_eq_true_iff]
        intro heq
        exact hseen (heq ▸ hc)
      rw [dedupById, if_pos hc, ih seen hseen,
        List.find?_cons_of_neg (p := fun x => decide (x.id = cid)) rest hne]
    · rw [dedupById, if_neg hc]
      by_cases hid : c.id = cid
      · rw [List.find?_cons_of_pos _ (by simpa using hid),
          List.find?_cons_of_pos _ (by simpa using hid)]
      · rw [List.find?_cons_of_neg _ (by simpa using hid),
          List.find?_cons_of_neg _ (by simpa using hid)]
        refine ih (c.id :: seen) ?_
        intro hmem
        rcases List.mem_cons.mp hmem with h | h
        · exact hid h.symm
        · exact hseen h

/-- After local dedup the ids are pairwise distinct and disjoint from the
seen set. -/
theorem dedupById_ids :
    ∀ (l : List ChatInfo) (seen : List (List Char)),
      ((dedupById l seen).map (·.id)).Nodup ∧
        ∀ x ∈ (dedupById l seen).map (·.id), x ∉ seen := by
  intro l
  induction l with
  | nil =>
    intro seen
    exact ⟨List.nodup_nil, by simp [dedupById]⟩
  | cons c rest ih =>
    intro seen
    by_cases hc : c.id ∈ seen
    · rw [dedupById, if_pos hc]
      exact ih seen
    · rw [dedupById, if_neg hc]
      obtain ⟨hnd, hdisj⟩ := ih (c.id :: seen)
      refine ⟨?_, ?_⟩
      · simp only [List.map_cons, List.nodup_cons]
        refine ⟨fun hmem => ?_, hnd⟩
        exact hdisj c.id hmem (List.mem_cons_self _ _)
      · intro x hx
        simp only [List.map_cons, List.mem_cons] at hx
        rcases hx with rfl | hx
        · exact hc
        · intro hxs
          exact hdisj x hx (List.mem_cons_of_mem _ hxs)

/-- Erasing a different key does not affect a lookup. -/
theorem mapErase_lookup_ne {m : List (List Char × ChatInfo)} {k k2 : List Char}
    (hne : k ≠ k2) : mapLookup (mapErase m k2) k = mapLookup m k := by
  unfold mapLookup mapErase
  induction m with
  | nil => rfl
  | cons p t ih =>
    by_cases hp2 : p.1 = k2
    · rw [List.filter_cons_of_neg (by simpa using hp2)]
      have hpk : ¬ (decide (p.1 = k) = true) := by
        simp only [decide_eq_true_iff]
        intro heq
        exact hne (heq ▸ hp2)
      rw [List.find?_cons_of_neg (p := fun q => decide (q.1 = k)) t hpk]
      exact ih
    · rw [List.filter_cons_of_pos (by simpa using hp2)]
      by_cases hpk : p.1 = k
      · rw [List.find?_cons_of_pos _ (by simpa using hpk),
          List.find?_cons_of_pos _ (by simpa using hpk)]
      · rw [List.find?_cons_of_neg _ (by simpa using hpk),
          List.find?_cons_of_neg _ (by simpa using hpk)]
        exact ih

/-- A lookup hit means the key is among the map's keys. -/
theorem mapLookup_some_key {m : List (List Char × ChatInfo)} {k : List Char}
    {v : ChatInfo} (h : mapLookup m k = some v) : k ∈ m.map (·.1) := by
  unfold mapLookup at h
  cases hf : m.find? (fun p => p.1 = k) with
  | none =>
    rw [hf] at h
    simp at h
  | some q =>
    have hq : q.1 = k := by simpa using List.find?_some hf
    have hmem := List.mem_of_find?_eq_some hf
    rw [← hq]
    exact List.mem_map_of_mem _ hmem

/-- One `HashMap` insert either keeps the key multiset or appends the new
key. -/
theorem buildStep_keys (m : List (List Char × ChatInfo)) (c : ChatInfo) :
    ((if m.any (fun p => p.1 = c.id) then
        m.map (fun p => if p.1 = c.id then (c.id, c) else p)
      else m ++ [(c.id, c)]).map (·.1)) = m.map (·.1) ∨
      ((if m.any (fun p => p.1 = c.id) then
        m.map (fun p => if p.1 = c.id then (c.id, c) else p)
      else m ++ [(c.id, c)]).map (·.1)) = m.map (·.1) ++ [c.id] := by
  by_cases hany : m.any (fun p => p.1 = c.id) = true
  · left
    rw [if_pos hany, List.map_map]
    refine List.map_congr_left ?_
    intro p _
    by_cases hp : p.1 = c.id
    · simp [hp]
    · simp [hp]
  · right
    rw [if_neg hany]
    simp

/-- A key found in the built backend map comes from the deduplicated backend
list. -/
theorem buildChatMap_key_mem {cid : List Char} {nc : ChatInfo} :
    ∀ (l : List ChatInfo) (m0 : List (List Char × ChatInfo)),
      mapLookup (l.foldl
        (fun m c =>
          if m.any (fun p => p.1 = c.id) then
            m.map (fun p => if p.1 = c.id then (c.id, c) else p)
          else m ++ [(c.id, c)]) m0) cid = some nc →
      cid ∈ m0.map (·.1) ∨ cid ∈ l.map (·.id) := by
  intro l
  induction l with
  | nil =>
    intro m0 h
    exact Or.inl (mapLookup_some_key h)
  | cons c rest ih =>
    intro m0 h
    rw [List.foldl_cons] at h
    rcases ih _ h with hm | hl
    · rcases buildStep_keys m0 c with hk | hk
      · rw [hk] at hm
        exact Or.inl hm
      · rw [hk] at hm
        rcases List.mem_append.mp hm with hm | hm
        · exact Or.inl hm
        · simp only [List.mem_singleton] at hm
          exact Or.inr (by simp [hm])
    · exact Or.inr (by simp [hl])

/-- The update loop rewrites the first chat with the looked-up id according
to the open/non-open unread rule, and nothing else with that id exists. -/
theorem updateExisting_find (openIds : List (List Char)) (cid : List Char)
    (c nc : ChatInfo) :
    ∀ (ls : List ChatInfo) (m : List (List Char × ChatInfo)),
      (ls.map (·.id)).Nodup →
      ls.find? (fun x => x.id = cid) = some c →
      mapLookup m cid = some nc →
      (updateExisting openIds ls m).1.find? (fun x => x.id = cid) =
        some { c with name := nc.name, unread := if cid ∈ openIds then c.unread else max c.unread nc.unread } := by
  intro ls
  induction ls with
  | nil =>
    intro m _ hfind _
    simp at hfind
  | cons h rest ih =>
    intro m hnd hfind hm
    by_cases hid : h.id = cid
    · obtain rfl : h = c := by
        rw [List.find?_cons_of_pos _ (by simpa using hid)] at hfind
        simpa using hfind
    -- the head is the chat: its map entry is `nc`
      rw [updateExisting]
      rw [← hid] at hm
      rw [hm]
      simp only
      rw [List.find?_cons_of_pos _ (by simpa using hid)]
      simp [hid]
    · rw [List.find?_cons_of_neg _ (by simpa using hid)] at hfind
      have hnd2 : (rest.map (·.id)).Nodup := by
        simpa using (List.nodup_cons.mp (by simpa using hnd)).2
      rw [updateExisting]
      cases hmh : mapLookup m h.id with
      | some nc0 =>
        simp only
        rw [List.find?_cons_of_neg _ (by simpa using hid)]
        refine ih (mapErase m h.id) hnd2 hfind ?_
        rw [mapErase_lookup_ne (fun heq => hid (heq.symm))]
        exact hm
      | none =>
        simp only
        rw [List.find?_cons_of_neg _ (by simpa using hid)]
        exact ih m hnd2 hfind hm

/-- C6: during a chat-list refresh, a surviving chat that is open in no pane
gets `max(local, backend)` as its unread counter, and a chat open in some
pane keeps its local unread counter unchanged. -/
theorem C6_refresh_unread_rule (locals deduplicated : List ChatInfo)
    (openIds : List (List Char)) (cid : List Char) (c nc : ChatInfo)
    (h1 : locals.find? (fun x => x.id = cid) = some c)
    (h2 : mapLookup (buildChatMap deduplicated) cid = some nc) :
    (refresh_chat_list_update locals deduplicated openIds).find?
        (fun x => x.id = cid) =
      some { c with name := nc.name, unread := if cid ∈ openIds then c.unread else max c.unread nc.unread } := by
  unfold refresh_chat_list_update
  have hd : (dedupById locals []).find? (fun x => x.id = cid) = some c := by
    rw [find?_dedupById cid locals [] (by simp)]
    exact h1
  have hnd := (dedupById_ids locals []).1
  have hupd := updateExisting_find openIds cid c nc (dedupById locals [])
    (buildChatMap deduplicated) hnd hd h2
  have happ := find?_append_left
    (((updateExisting openIds (dedupById locals []) (buildChatMap deduplicated)).2.filter
        (fun p => p.1 ∉ locals.map (·.id))).map (·.2)) hupd
  refine find?_filter happ ?_
  simp only [decide_eq_true_iff]
  left
  have hkey : cid ∈ deduplicated.map (·.id) := by
    rcases buildChatMap_key_mem deduplicated [] h2 with h | h
    · simp at h
    · exact h
  have hcid : c.id = cid := by simpa using List.find?_some h1
  rw [hcid]
  exact hkey

/-- Witness for C6: one local chat with three unread, backend reports one,
no pane has it open — the result is `max 3 1 = 3`. -/
theorem C6_refresh_unread_rule_witness :
    ([⟨chars "a", chars "Ann", none, 3, false, false⟩] : List ChatInfo).find?
        (fun x => x.id = chars "a") =
        some ⟨chars "a", chars "Ann", none, 3, false, false⟩ ∧
      mapLookup (buildChatMap [⟨chars "a", chars "Anna", none, 1, false, false⟩])
          (chars "a") = some ⟨chars "a", chars "Anna", none, 1, false, false⟩ ∧
      (refresh_chat_list_update
          [⟨chars "a", chars "Ann", none, 3, false, false⟩]
          [⟨chars "a", chars "Anna", none, 1, false, false⟩] []).find?
          (fun x => x.id = chars "a") =
        some { (⟨chars "a", chars "Ann", none, 3, false, false⟩ : ChatInfo) with name := chars "Anna", unread := if chars "a" ∈ ([] : List (List Char)) then 3 else max 3 1 } :=
  ⟨by decide, by decide,
    C6_refresh_unread_rule
      [⟨chars "a", chars "Ann", none, 3, false, false⟩]
      [⟨chars "a", chars "Anna", none, 1, false, false⟩] [] (chars "a")
      ⟨chars "a", chars "Ann", none, 3, false, false⟩
      ⟨chars "a", chars "Anna", none, 1, false, false⟩
      (by decide) (by decide)⟩
